import Mathlib

/-!
Verification of the temperature-atlas scraper (`scrape_temperatures.py`).

The script's logical core is embedded shallowly:

* strings are `List Char` (wrapped in `String` at the API boundary);
* Python floats are modelled as rationals `ℚ` — every numeral the code can
  produce is an exact decimal, and the only arithmetic is sum and division;
* the regex `\d` is modelled as the ASCII digits `0`–`9` and `str.strip`
  as trimming the whitespace characters recognised by `Char.isWhitespace`;
* HTML parsing (BeautifulSoup) is external glue: a page is modelled as the
  list of its `wikitable` tables in document order, a table as the list of
  its rows, a row as the list of its cell texts.
-/

/-- The empty string, used as the (never reached) default for cell lookups. -/
def blankS : String := ""

/-- Trims whitespace from both ends of a character list; models Python
`str.strip()`. -/
def pyStrip (cs : List Char) : List Char :=
  ((cs.dropWhile Char.isWhitespace).reverse.dropWhile Char.isWhitespace).reverse

/-- Single left-to-right pass of `re.sub(r'\([^)]*\)', '', s)`.  The second
argument is `none` outside a match candidate; inside one it buffers (in
reverse) the pending characters since the opening `(`.  A `)` completes the
candidate and discards the buffer (the matched `\([^)]*\)` is replaced by
nothing); if the input ends with a candidate still open there was no `)`
left, from this `(` or any later one, so the buffer is emitted verbatim —
exactly what the regex substitution leaves behind. -/
def removeParensAux : List Char → Option (List Char) → List Char
  | [], none => []
  | [], some buf => buf.reverse
  | c :: cs, none =>
      if c = '(' then removeParensAux cs (some [c]) else c :: removeParensAux cs none
  | c :: cs, some buf =>
      if c = ')' then removeParensAux cs none else removeParensAux cs (some (c :: buf))

/-- Models `re.sub(r'\([^)]*\)', '', s)`: removes every non-overlapping
substring running from a `(` to the first following `)`. -/
def removeParens (cs : List Char) : List Char :=
  removeParensAux cs none

/-- Single left-to-right pass of `re.sub(r'\[.*?\]', '', s)`, in the style
of `removeParensAux`.  One difference: `.` never matches a newline, so a
`\n` inside a candidate aborts it — and kills every candidate that could
start inside the buffer, since any later `]` still lies beyond that `\n` —
so the buffered characters and the `\n` are emitted and scanning resumes
outside a candidate. -/
def removeBracketsAux : List Char → Option (List Char) → List Char
  | [], none => []
  | [], some buf => buf.reverse
  | c :: cs, none =>
      if c = '[' then removeBracketsAux cs (some [c]) else c :: removeBracketsAux cs none
  | c :: cs, some buf =>
      if c = ']' then removeBracketsAux cs none
      else if c = '\n' then buf.reverse ++ '\n' :: removeBracketsAux cs none
      else removeBracketsAux cs (some (c :: buf))

/-- Models `re.sub(r'\[.*?\]', '', s)`: removes every non-overlapping
substring running from a `[` to the first following `]` with no newline in
between. -/
def removeBrackets (cs : List Char) : List Char :=
  removeBracketsAux cs none

/-- Value of a list of decimal digit characters. -/
def digitsVal (ds : List Char) : ℕ :=
  ds.foldl (fun a c => 10 * a + (c.toNat - 48)) 0

/-- Modelled from Python's `float` builtin, restricted to the unsigned
numeral shapes `\d+` and `\d+\.\d*` that the extraction regex can hand it
(the decimal is read exactly, as a rational); anything else is a
`ValueError`, i.e. `none`. -/
def parseUnsigned (cs : List Char) : Option ℚ :=
  let ip := cs.takeWhile Char.isDigit
  if ip = [] then none
  else
    match cs.dropWhile Char.isDigit with
    | [] => some (digitsVal ip : ℚ)
    | '.' :: fr =>
        if fr.all Char.isDigit then
          some (mkRat (digitsVal ip * 10 ^ fr.length + digitsVal fr) (10 ^ fr.length))
        else none
    | _ => none

/-- Modelled from Python's `float` builtin (see `parseUnsigned`): an
optional ASCII minus sign followed by an unsigned decimal numeral. -/
def parseFloat (cs : List Char) : Option ℚ :=
  match cs with
  | [] => none
  | c :: rest =>
      if c = '-' then (parseUnsigned rest).map (fun v => -v)
      else parseUnsigned (c :: rest)

/-- Matches `\d+\.?\d*` greedily at the head of the list: one or more
digits, then an optional dot with trailing digits. -/
def numTail (rest : List Char) : Option (List Char) :=
  let d1 := rest.takeWhile Char.isDigit
  if d1 = [] then none
  else
    match rest.dropWhile Char.isDigit with
    | '.' :: rest3 => some (d1 ++ '.' :: rest3.takeWhile Char.isDigit)
    | _ => some d1

/-- Attempts the regex `[-−]?\d+\.?\d*` anchored at the head of the list:
a sign is consumed only when digits follow it. -/
def matchNumAt (cs : List Char) : Option (List Char) :=
  match cs with
  | [] => none
  | c :: cs1 =>
      if c = '-' ∨ c = '−' then (numTail cs1).map (fun t => c :: t)
      else numTail (c :: cs1)

/-- Models `re.search(r'[-−]?\d+\.?\d*', s)`: first match scanning left to
right. -/
def searchNum : List Char → Option (List Char)
  | [] => none
  | c :: cs =>
    match matchNumAt (c :: cs) with
    | some m => some m
    | none => searchNum cs

/-- Models `value.replace('−', '-')`. -/
def normalizeMinus (cs : List Char) : List Char :=
  cs.map (fun c => if c = '−' then '-' else c)

/-- The recognised "no data" markers `['', '—', '-', 'N/A']`. -/
def noData : List (List Char) := [[], ['—'], ['-'], ['N', '/', 'A']]

/-- Body of `parse_temperature` on character lists. -/
def parseTempAux (cs : List Char) : Option ℚ :=
  if cs = [] ∨ pyStrip cs ∈ noData then none
  else
    match searchNum (removeParens cs) with
    | some m =>
        match parseFloat (normalizeMinus m) with
        | some v => some v
        | none => none
    | none => none

/-- Embeds `parse_temperature`: parse a temperature cell text into an
optional Celsius value. -/
def parse_temperature (s : String) : Option ℚ := parseTempAux s.data

/-- One parsed city row, as built by `extract_tables` (the dict with keys
`continent`, `country`, `city`, `jan` .. `dec`, `yearly_avg`; the twelve
month fields are kept as the list `monthly`, index 0 = `jan`). -/
structure TemperatureRecord where
  continent : String
  country : String
  city : String
  monthly : List (Option ℚ)
  yearly_avg : Option ℚ
deriving DecidableEq, Repr

/-- Cleanup applied to the country and city cells:
`re.sub(r'\[.*?\]', '', cells[i].get_text().strip()).strip()`. -/
def cleanName (s : String) : String :=
  ⟨pyStrip (removeBrackets (pyStrip s.data))⟩

/-- The fixed positional continent list `continent_order`. -/
def continent_order : List String :=
  ["Africa", "Asia", "Europe", "North America", "Oceania", "South America"]

/-- The local `monthly_temps` of `extract_tables`: cells 2–13 through the
temperature parser (the bound check never fails under the 14-cell guard,
but the code performs it). -/
def monthlyOf (cells : List String) : List (Option ℚ) :=
  (List.range' 2 12).map fun i =>
    if i < cells.length then parse_temperature (cells.getD i blankS) else none

/-- The first assignment to `yearly_avg`: cell 14 parsed when present. -/
def yearlyFromCell (cells : List String) : Option ℚ :=
  if 14 < cells.length then parse_temperature (cells.getD 14 blankS) else none

/-- Arithmetic mean `sum(l) / len(l)`. -/
def meanOf (l : List ℚ) : ℚ := l.sum / (l.length : ℚ)

/-- Final `yearly_avg`: the parsed cell 14 when that produced a value,
otherwise the mean of the present monthly values (`valid_temps`), absent
when there are none. -/
def yearlyOf (cells : List String) : Option ℚ :=
  match yearlyFromCell cells with
  | some v => some v
  | none =>
      if (monthlyOf cells).filterMap id = [] then none
      else some (meanOf ((monthlyOf cells).filterMap id))

/-- Body of the per-row loop of `extract_tables`: turns one row's cell
texts into a record, or `none` for the rows the loop skips (fewer than 14
cells, or empty country/city after cleanup). -/
def processRow (continent : String) (cells : List String) : Option TemperatureRecord :=
  if 14 ≤ cells.length then
    if cleanName (cells.getD 0 blankS) = blankS ∨ cleanName (cells.getD 1 blankS) = blankS then
      none
    else
      some ⟨continent, cleanName (cells.getD 0 blankS), cleanName (cells.getD 1 blankS),
        monthlyOf cells, yearlyOf cells⟩
  else none

/-- Body of the per-table loop of `extract_tables`: skip the header row,
process the rest. -/
def processTable (continent : String) (rows : List (List String)) : List TemperatureRecord :=
  (rows.drop 1).filterMap (processRow continent)

/-- The table loop of `extract_tables`, carrying the running index of
`enumerate(tables)`: a table whose index reaches past `continent_order` is
skipped (`continue`). -/
def extractAux : ℕ → List (List (List String)) → List TemperatureRecord
  | _, [] => []
  | idx, t :: ts =>
      (if idx < continent_order.length then
        processTable (continent_order.getD idx blankS) t
      else []) ++ extractAux (idx + 1) ts

/-- Embeds `extract_tables`: from the page's `wikitable` tables (in
document order) to the ordered record sequence. -/
def extract_tables (tables : List (List (List String))) : List TemperatureRecord :=
  extractAux 0 tables

/-- State of the SQLite store over one `create_database` run on a fresh
file: the rows of the four tables, each in insertion order.  A country row
is keyed by `(name, continent name)` — the code resolves `continent_id`
from the name it just inserted; a city row carries its country key, and a
temperature row holds the twelve month columns and the yearly average of
the city row appended in the same loop step (`city_id = lastrowid`). -/
structure DBState where
  continents : List String
  countries : List (String × String)
  cities : List (String × String × String)
  temperatures : List (List (Option ℚ) × Option ℚ)
deriving DecidableEq, Repr

/-- One iteration of the insert loop of `create_database`: continent and
country are inserted only when not already present (the lookup dicts plus
`INSERT OR IGNORE` on a fresh database), while a city row and its
temperature row are appended unconditionally. -/
def insertRecord (db : DBState) (r : TemperatureRecord) : DBState where
  continents :=
    if r.continent ∈ db.continents then db.continents
    else db.continents ++ [r.continent]
  countries :=
    if (r.country, r.continent) ∈ db.countries then db.countries
    else db.countries ++ [(r.country, r.continent)]
  cities := db.cities ++ [(r.city, r.country, r.continent)]
  temperatures := db.temperatures ++ [(r.monthly, r.yearly_avg)]

/-- Embeds the insertion phase of `create_database` on a fresh database:
fold the insert loop over the record sequence starting from empty tables. -/
def create_database (data : List TemperatureRecord) : DBState :=
  data.foldl insertRecord ⟨[], [], [], []⟩

/-- The data row of the synthetic end-to-end scenario. -/
def c1Row : List String :=
  ["France", "Paris", "5.0", "6.0", "9.0", "11.0", "15.0", "18.0",
   "20.0", "20.0", "17.0", "13.0", "8.0", "5.0"]

/-- The twelve monthly values of the synthetic scenario, in the raw shape
the parser produces them. -/
def c1Monthly : List ℚ :=
  [mkRat 50 10, mkRat 60 10, mkRat 90 10, mkRat 110 10, mkRat 150 10, mkRat 180 10,
   mkRat 200 10, mkRat 200 10, mkRat 170 10, mkRat 130 10, mkRat 80 10, mkRat 50 10]

/-- The record the extractor builds from `c1Row` in table slot 0. -/
def c1Record : TemperatureRecord :=
  ⟨"Africa", "France", "Paris", c1Monthly.map some,
    some (c1Monthly.sum / ((12 : ℕ) : ℚ))⟩

/-- The synthetic page: one table, a header row and `c1Row`. -/
def c1Page : List (List (List String)) := [[["Country"], c1Row]]

/-- C1: on a synthetic page whose single `wikitable` table has a header row
and the one data row `["France", "Paris", "5.0", …, "5.0"]` with no yearly
column, extraction yields exactly one record: continent `"Africa"` (first
positional slot), country `"France"`, city `"Paris"`, the twelve listed
monthly values, and yearly average the mean of those twelve values,
`12.25`. -/
theorem extract_synthetic_page (hdr : List String) :
    extract_tables [[hdr, c1Row]] =
      [⟨"Africa", "France", "Paris",
        [some 5, some 6, some 9, some 11, some 15, some 18,
         some 20, some 20, some 17, some 13, some 8, some 5],
        some 12.25⟩] := by
  rw [show extract_tables [[hdr, c1Row]] = [c1Record] from rfl]
  simp only [c1Record, List.cons.injEq, TemperatureRecord.mk.injEq, Option.some.injEq,
    and_true, true_and, c1Monthly, List.map_cons, List.map_nil, List.sum_cons, List.sum_nil]
  norm_num [Rat.mkRat_eq_div]

/-- C5: any input whose trimmed form is the empty string, the em-dash, the
plain hyphen, or `N/A` parses to absent. -/
theorem parse_no_data_markers (s : String) (h : pyStrip s.data ∈ noData) :
    parse_temperature s = none := by
  unfold parse_temperature parseTempAux
  rw [if_pos (Or.inr h)]

/-- Witness for `parse_no_data_markers` at the input `" N/A "`. -/
theorem parse_no_data_markers_app :
    pyStrip (" N/A ").data ∈ noData ∧ parse_temperature (" N/A ") = none :=
  ⟨by decide, parse_no_data_markers (" N/A ") (by decide)⟩

/-- C6: the four reference equations of the temperature parser: `"15.2"`
parses to `15.2`; `"−3.4"` (Unicode minus) parses to `-3.4`;
`"15.2 (59.4)"` parses to `15.2` with the parenthesised part stripped;
`"abc"` parses to absent. -/
theorem parse_reference_values :
    parse_temperature ("15.2") = some 15.2 ∧
    parse_temperature ("−3.4") = some (-3.4) ∧
    parse_temperature ("15.2 (59.4)") = some 15.2 ∧
    parse_temperature ("abc") = none := by
  refine ⟨?_, ?_, ?_, rfl⟩
  · rw [show parse_temperature ("15.2") = some (mkRat 152 10) from rfl]
    norm_num [Rat.mkRat_eq_div]
  · rw [show parse_temperature ("−3.4") = some (-(mkRat 34 10)) from rfl]
    norm_num [Rat.mkRat_eq_div]
  · rw [show parse_temperature ("15.2 (59.4)") = some (mkRat 152 10) from rfl]
    norm_num [Rat.mkRat_eq_div]

/-- C9: footnote brackets are stripped only by the country/city cleanup,
not by the temperature parser — the parser digs the digit out of `"[2]"`
and returns `2`, while the same text cleans to the empty name. -/
theorem bracket_footnote_asymmetry :
    parse_temperature ("[2]") = some 2 ∧ cleanName ("[2]") = blankS := by
  constructor
  · rw [show parse_temperature ("[2]") = some ((2 : ℕ) : ℚ) from rfl]
    norm_num
  · rfl

theorem processRow_some {c : String} {cells : List String} {r : TemperatureRecord}
    (h : processRow c cells = some r) :
    14 ≤ cells.length ∧
    cleanName (cells.getD 0 blankS) ≠ blankS ∧ cleanName (cells.getD 1 blankS) ≠ blankS ∧
    r = ⟨c, cleanName (cells.getD 0 blankS), cleanName (cells.getD 1 blankS),
      monthlyOf cells, yearlyOf cells⟩ := by
  unfold processRow at h
  split at h
  · rename_i h14
    split at h
    · simp at h
    · rename_i hne
      push_neg at hne
      exact ⟨h14, hne.1, hne.2, (Option.some.inj h).symm⟩
  · simp at h

theorem yearlyOf_fallback {cells : List String}
    (h15 : cells.length ≤ 14 ∨ parse_temperature (cells.getD 14 blankS) = none) :
    yearlyOf cells =
      if (monthlyOf cells).filterMap id = [] then none
      else some (meanOf ((monthlyOf cells).filterMap id)) := by
  have hc : yearlyFromCell cells = none := by
    unfold yearlyFromCell
    rcases h15 with h | h
    · rw [if_neg (by omega)]
    · split
      · exact h
      · rfl
  unfold yearlyOf
  rw [hc]

/-- C2: when cell 14 is missing or fails to parse, the yearly average is
the mean of the present monthly values, and absent when none are. -/
theorem yearly_avg_fallback (c : String) (cells : List String) (r : TemperatureRecord)
    (hr : processRow c cells = some r)
    (h15 : cells.length ≤ 14 ∨ parse_temperature (cells.getD 14 blankS) = none) :
    (r.monthly.filterMap id = [] → r.yearly_avg = none) ∧
    (r.monthly.filterMap id ≠ [] →
      r.yearly_avg = some (meanOf (r.monthly.filterMap id))) := by
  obtain ⟨h14, hco, hci, rfl⟩ := processRow_some hr
  dsimp only
  rw [yearlyOf_fallback h15]
  constructor
  · intro h0; rw [if_pos h0]
  · intro h0; rw [if_neg h0]

def w2Cells : List String :=
  ["A", "B", "5", "—", "—", "—", "—", "—", "—", "—", "—", "—", "—", "—"]

def w2Record : TemperatureRecord :=
  ⟨"Africa", "A", "B",
    [some ((5 : ℕ) : ℚ), none, none, none, none, none, none, none, none, none, none, none],
    some (meanOf [((5 : ℕ) : ℚ)])⟩

theorem yearly_avg_fallback_app :
    w2Record.yearly_avg = some (meanOf (w2Record.monthly.filterMap id)) :=
  (yearly_avg_fallback ("Africa") w2Cells w2Record rfl (Or.inl (by decide))).2 (by decide)

/-- C10: a fallback yearly average lies between the minimum and maximum
present monthly value: it is below every upper bound of the present values
and above every lower bound. -/
theorem fallback_mean_bounded (c : String) (cells : List String) (r : TemperatureRecord)
    (q : ℚ) (hr : processRow c cells = some r)
    (h15 : cells.length ≤ 14 ∨ parse_temperature (cells.getD 14 blankS) = none)
    (hq : r.yearly_avg = some q) :
    (∀ M, (∀ x ∈ r.monthly.filterMap id, x ≤ M) → q ≤ M) ∧
    (∀ m, (∀ x ∈ r.monthly.filterMap id, m ≤ x) → m ≤ q) := by
  obtain ⟨h14, hco, hci, rfl⟩ := processRow_some hr
  dsimp only at hq ⊢
  rw [yearlyOf_fallback h15] at hq
  by_cases h0 : (monthlyOf cells).filterMap id = []
  · rw [if_pos h0] at hq
    exact absurd hq (by simp)
  · rw [if_neg h0] at hq
    obtain rfl : meanOf ((monthlyOf cells).filterMap id) = q := Option.some.inj hq
    have hlen : 0 < ((monthlyOf cells).filterMap id).length := List.length_pos.mpr h0
    have hlenQ : (0 : ℚ) < (((monthlyOf cells).filterMap id).length : ℚ) := by
      exact_mod_cast hlen
    constructor
    · intro M hM
      have hsum := List.sum_le_card_nsmul ((monthlyOf cells).filterMap id) M hM
      rw [nsmul_eq_mul] at hsum
      unfold meanOf
      rw [div_le_iff₀ hlenQ]
      linarith
    · intro m hm
      have hsum := List.card_nsmul_le_sum ((monthlyOf cells).filterMap id) m hm
      rw [nsmul_eq_mul] at hsum
      unfold meanOf
      rw [le_div_iff₀ hlenQ]
      linarith

theorem fallback_mean_bounded_app : meanOf [((5 : ℕ) : ℚ)] ≤ 5 :=
  (fallback_mean_bounded ("Africa") w2Cells w2Record (meanOf [((5 : ℕ) : ℚ)]) rfl
    (Or.inl (by decide)) rfl).1 5 (by
      intro x hx
      have hx2 : x ∈ [((5 : ℕ) : ℚ)] := hx
      rw [List.mem_singleton.mp hx2]
      norm_num)

/-- C4: an emitted record always comes from a row with at least 14 cells
and has non-empty cleaned country and city names; a row failing either
check yields no record; and a table only ever processes its non-header
rows. -/
theorem emitted_record_valid :
    (∀ c cells r, processRow c cells = some r →
      14 ≤ cells.length ∧ r.country = cleanName (cells.getD 0 blankS) ∧
      r.city = cleanName (cells.getD 1 blankS) ∧ r.country ≠ blankS ∧ r.city ≠ blankS) ∧
    (∀ c cells, cells.length < 14 ∨ cleanName (cells.getD 0 blankS) = blankS ∨
      cleanName (cells.getD 1 blankS) = blankS → processRow c cells = none) ∧
    (∀ c rows, processTable c rows = (rows.drop 1).filterMap (processRow c)) := by
  refine ⟨?_, ?_, fun c rows => rfl⟩
  · intro c cells r h
    obtain ⟨h14, hco, hci, rfl⟩ := processRow_some h
    exact ⟨h14, rfl, rfl, hco, hci⟩
  · intro c cells h
    unfold processRow
    by_cases h14 : 14 ≤ cells.length
    · rcases h with h | h | h
      · omega
      · rw [if_pos h14, if_pos (Or.inl h)]
      · rw [if_pos h14, if_pos (Or.inr h)]
    · rw [if_neg h14]

theorem emitted_record_valid_app :
    14 ≤ w2Cells.length ∧ w2Record.country = cleanName (w2Cells.getD 0 blankS) ∧
    w2Record.city = cleanName (w2Cells.getD 1 blankS) ∧
    w2Record.country ≠ blankS ∧ w2Record.city ≠ blankS :=
  emitted_record_valid.1 ("Africa") w2Cells w2Record rfl

theorem continent_order_length : continent_order.length = 6 := rfl

theorem extractAux_of_le : ∀ (ts : List (List (List String))) (idx : ℕ),
    6 ≤ idx → extractAux idx ts = [] := by
  intro ts
  induction ts with
  | nil => intro idx h; rfl
  | cons t ts ih =>
    intro idx h
    unfold extractAux
    rw [if_neg (by rw [continent_order_length]; omega)]
    rw [ih (idx + 1) (by omega)]
    rfl

theorem extractAux_take : ∀ (ts : List (List (List String))) (idx : ℕ),
    extractAux idx ts = extractAux idx (ts.take (6 - idx)) := by
  intro ts
  induction ts with
  | nil => intro idx; rw [List.take_nil]
  | cons t ts ih =>
    intro idx
    by_cases h : idx < 6
    · have h6 : 6 - idx = (6 - (idx + 1)) + 1 := by omega
      rw [h6, List.take_succ_cons]
      unfold extractAux
      rw [ih (idx + 1)]
    · rw [extractAux_of_le (t :: ts) idx (by omega)]
      have h6 : 6 - idx = 0 := by omega
      rw [h6, List.take_zero]
      rfl

theorem processTable_continent {c : String} {rows : List (List String)}
    {r : TemperatureRecord} (h : r ∈ processTable c rows) : r.continent = c := by
  unfold processTable at h
  rw [List.mem_filterMap] at h
  obtain ⟨cells, hm, hp⟩ := h
  obtain ⟨h14, hco, hci, rfl⟩ := processRow_some hp
  rfl

theorem mem_extractAux {r : TemperatureRecord} :
    ∀ (ts : List (List (List String))) (idx : ℕ), r ∈ extractAux idx ts →
      ∃ j, idx ≤ j ∧ j < 6 ∧ j - idx < ts.length ∧
        r ∈ processTable (continent_order.getD j blankS) (ts.getD (j - idx) []) := by
  intro ts
  induction ts with
  | nil => intro idx h; simp [extractAux] at h
  | cons t ts ih =>
    intro idx h
    unfold extractAux at h
    rw [List.mem_append] at h
    rcases h with h | h
    · by_cases hi : idx < continent_order.length
      · rw [if_pos hi] at h
        refine ⟨idx, le_refl idx, by rw [continent_order_length] at hi; omega, by simp, ?_⟩
        rw [Nat.sub_self]
        simpa using h
      · rw [if_neg hi] at h
        simp at h
    · obtain ⟨j, hj1, hj2, hj3, hj4⟩ := ih (idx + 1) h
      refine ⟨j, by omega, hj2, by simp only [List.length_cons]; omega, ?_⟩
      have hs : j - idx = (j - (idx + 1)) + 1 := by omega
      rw [hs]
      simpa using hj4

/-- C3: each record's continent is fixed purely by the index of its table
among the page's qualifying tables via the list `continent_order`, and any
table at index six or beyond contributes nothing: extraction sees only the
first six tables. -/
theorem continent_positional :
    (∀ ts r, r ∈ extract_tables ts →
      ∃ j, j < 6 ∧ j < ts.length ∧
        r ∈ processTable (continent_order.getD j blankS) (ts.getD j []) ∧
        r.continent = continent_order.getD j blankS) ∧
    (∀ ts, extract_tables ts = extract_tables (ts.take 6)) := by
  constructor
  · intro ts r h
    obtain ⟨j, hj1, hj2, hj3, hj4⟩ := mem_extractAux ts 0 h
    rw [Nat.sub_zero] at hj3 hj4
    exact ⟨j, hj2, hj3, hj4, processTable_continent hj4⟩
  · intro ts
    unfold extract_tables
    simpa using extractAux_take ts 0

/-- Witness for `continent_positional` on the synthetic one-table page. -/
theorem continent_positional_app :
    ∃ j, j < 6 ∧ j < c1Page.length ∧
      c1Record ∈ processTable (continent_order.getD j blankS) (c1Page.getD j []) ∧
      c1Record.continent = continent_order.getD j blankS :=
  continent_positional.1 c1Page c1Record (by
    rw [show extract_tables c1Page = [c1Record] from rfl]
    exact List.mem_singleton.mpr rfl)

theorem takeWhile_append_all {p : Char → Bool} {l1 : List Char} (l2 : List Char)
    (h : ∀ x ∈ l1, p x = true) :
    (l1 ++ l2).takeWhile p = l1 ++ l2.takeWhile p := by
  induction l1 with
  | nil => simp
  | cons a l ih =>
    rw [List.cons_append, List.takeWhile_cons_of_pos (h a (by simp)), List.cons_append,
      ih (fun x hx => h x (by simp [hx]))]

theorem dropWhile_append_all {p : Char → Bool} {l1 : List Char} (l2 : List Char)
    (h : ∀ x ∈ l1, p x = true) :
    (l1 ++ l2).dropWhile p = l2.dropWhile p := by
  induction l1 with
  | nil => simp
  | cons a l ih =>
    rw [List.cons_append, List.dropWhile_cons_of_pos (h a (by simp)),
      ih (fun x hx => h x (by simp [hx]))]

theorem digit_ne_minusU {c : Char} (h : c.isDigit = true) : c ≠ '−' := by
  intro he
  subst he
  exact absurd h (by decide)

theorem digit_ne_dash {c : Char} (h : c.isDigit = true) : c ≠ '-' := by
  intro he
  subst he
  exact absurd h (by decide)

theorem normalizeMinus_of_digits (cs : List Char)
    (h : ∀ x ∈ cs, x.isDigit = true ∨ x = '.') : normalizeMinus cs = cs := by
  unfold normalizeMinus
  have hm : ∀ x ∈ cs, (if x = '−' then '-' else x) = id x := by
    intro x hx
    rcases h x hx with hd | hd
    · rw [if_neg (digit_ne_minusU hd)]
      rfl
    · subst hd
      rfl
  rw [List.map_congr_left hm, List.map_id]

theorem numTail_some {rest t : List Char} (h : numTail rest = some t) :
    ∃ d1 tail, t = d1 ++ tail ∧ d1 ≠ [] ∧ (∀ x ∈ d1, x.isDigit = true) ∧
      (tail = [] ∨ ∃ d2, tail = '.' :: d2 ∧ ∀ x ∈ d2, x.isDigit = true) := by
  simp only [numTail] at h
  by_cases hd : rest.takeWhile Char.isDigit = []
  · rw [if_pos hd] at h
    exact absurd h (by simp)
  · rw [if_neg hd] at h
    split at h
    · exact ⟨rest.takeWhile Char.isDigit, _, (Option.some.inj h).symm, hd,
        fun x hx => List.mem_takeWhile_imp hx,
        Or.inr ⟨_, rfl, fun x hx => List.mem_takeWhile_imp hx⟩⟩
    · exact ⟨rest.takeWhile Char.isDigit, [],
        by rw [List.append_nil, Option.some.inj h], hd,
        fun x hx => List.mem_takeWhile_imp hx, Or.inl rfl⟩

theorem parseUnsigned_shape {d1 tail : List Char} (h1 : d1 ≠ [])
    (hd : ∀ x ∈ d1, x.isDigit = true)
    (ht : tail = [] ∨ ∃ d2, tail = '.' :: d2 ∧ ∀ x ∈ d2, x.isDigit = true) :
    ∃ q, parseUnsigned (d1 ++ tail) = some q := by
  rcases ht with rfl | ⟨d2, rfl, hd2⟩
  · have e1 : d1.takeWhile Char.isDigit = d1 := by
      have := takeWhile_append_all (p := Char.isDigit) [] hd
      simpa using this
    have e2 : d1.dropWhile Char.isDigit = [] := by
      have := dropWhile_append_all (p := Char.isDigit) [] hd
      simpa using this
    refine ⟨(digitsVal d1 : ℚ), ?_⟩
    simp only [parseUnsigned, List.append_nil]
    rw [e1, e2, if_neg h1]
  · have e1 : (d1 ++ '.' :: d2).takeWhile Char.isDigit = d1 := by
      rw [takeWhile_append_all _ hd, List.takeWhile_cons_of_neg (by decide), List.append_nil]
    have e2 : (d1 ++ '.' :: d2).dropWhile Char.isDigit = '.' :: d2 := by
      rw [dropWhile_append_all _ hd, List.dropWhile_cons_of_neg (by decide)]
    refine ⟨mkRat (digitsVal d1 * 10 ^ d2.length + digitsVal d2) (10 ^ d2.length), ?_⟩
    simp only [parseUnsigned]
    rw [e1, e2, if_neg h1]
    show (if d2.all Char.isDigit then
        some (mkRat (digitsVal d1 * 10 ^ d2.length + digitsVal d2) (10 ^ d2.length))
      else none) = _
    rw [if_pos (List.all_eq_true.mpr hd2)]

theorem matchNumAt_some {cs m : List Char} (h : matchNumAt cs = some m) :
    ∃ q, parseFloat (normalizeMinus m) = some q := by
  cases cs with
  | nil => exact absurd h (by simp [matchNumAt])
  | cons c cs1 =>
    simp only [matchNumAt] at h
    by_cases hc : c = '-' ∨ c = '−'
    · rw [if_pos hc] at h
      rw [Option.map_eq_some'] at h
      obtain ⟨t, hnt, rfl⟩ := h
      obtain ⟨d1, tail, rfl, h1, hd, ht⟩ := numTail_some hnt
      obtain ⟨q, hq⟩ := parseUnsigned_shape h1 hd ht
      have hmix : ∀ x ∈ d1 ++ tail, x.isDigit = true ∨ x = '.' := by
        intro x hx
        rw [List.mem_append] at hx
        rcases hx with hx | hx
        · exact Or.inl (hd x hx)
        · rcases ht with rfl | ⟨d2, rfl, hd2⟩
          · simp at hx
          · rcases List.mem_cons.mp hx with rfl | hx
            · exact Or.inr rfl
            · exact Or.inl (hd2 x hx)
      have hn : normalizeMinus (c :: (d1 ++ tail)) = '-' :: (d1 ++ tail) := by
        unfold normalizeMinus
        rw [List.map_cons]
        have hmapped := normalizeMinus_of_digits (d1 ++ tail) hmix
        unfold normalizeMinus at hmapped
        rw [hmapped]
        rcases hc with rfl | rfl
        · rfl
        · rfl
      rw [hn]
      have hpf : parseFloat ('-' :: (d1 ++ tail)) =
          (parseUnsigned (d1 ++ tail)).map (fun v => -v) := rfl
      rw [hpf, hq]
      exact ⟨-q, rfl⟩
    · rw [if_neg hc] at h
      obtain ⟨d1, tail, rfl, h1, hd, ht⟩ := numTail_some h
      obtain ⟨q, hq⟩ := parseUnsigned_shape h1 hd ht
      have hmix : ∀ x ∈ d1 ++ tail, x.isDigit = true ∨ x = '.' := by
        intro x hx
        rw [List.mem_append] at hx
        rcases hx with hx | hx
        · exact Or.inl (hd x hx)
        · rcases ht with rfl | ⟨d2, rfl, hd2⟩
          · simp at hx
          · rcases List.mem_cons.mp hx with rfl | hx
            · exact Or.inr rfl
            · exact Or.inl (hd2 x hx)
      rw [normalizeMinus_of_digits _ hmix]
      obtain ⟨e, d1x, rfl⟩ := List.exists_cons_of_ne_nil h1
      have he : e.isDigit = true := hd e (by simp)
      rw [List.cons_append] at hq ⊢
      have hpf : parseFloat (e :: (d1x ++ tail)) =
          if e = '-' then (parseUnsigned (d1x ++ tail)).map (fun v => -v)
          else parseUnsigned (e :: (d1x ++ tail)) := rfl
      rw [hpf, if_neg (digit_ne_dash he)]
      exact ⟨q, hq⟩

theorem searchNum_some {m : List Char} :
    ∀ cs, searchNum cs = some m → ∃ cs0, matchNumAt cs0 = some m := by
  intro cs
  induction cs with
  | nil => intro h; exact absurd h (by simp [searchNum])
  | cons c cs1 ih =>
    intro h
    unfold searchNum at h
    cases hm : matchNumAt (c :: cs1) with
    | some m0 =>
        rw [hm] at h
        exact ⟨c :: cs1, by rw [hm, Option.some.inj h]⟩
    | none =>
        rw [hm] at h
        exact ih h

/-- C7: the parser is total — every input yields absent or a value — and
the internal float-conversion failure branch is unreachable: every
substring the numeric regex matches converts successfully after
Unicode-minus normalization. -/
theorem parse_never_fails :
    (∀ s : String, parse_temperature s = none ∨ ∃ q, parse_temperature s = some q) ∧
    (∀ cs m, searchNum cs = some m → ∃ q, parseFloat (normalizeMinus m) = some q) := by
  constructor
  · intro s
    cases h : parse_temperature s with
    | none => exact Or.inl rfl
    | some q => exact Or.inr ⟨q, rfl⟩
  · intro cs m h
    obtain ⟨cs0, h0⟩ := searchNum_some cs h
    exact matchNumAt_some h0

/-- Witness for `parse_never_fails` on the match `"15.2"`. -/
theorem parse_never_fails_app :
    ∃ q, parseFloat (normalizeMinus ['1', '5', '.', '2']) = some q :=
  parse_never_fails.2 ['1', '5', '.', '2'] ['1', '5', '.', '2'] (by decide)

theorem foldl_insert_continents_mem (data : List TemperatureRecord) :
    ∀ (db : DBState) (c : String),
      (c ∈ (data.foldl insertRecord db).continents ↔
        c ∈ db.continents ∨ ∃ r ∈ data, r.continent = c) := by
  induction data with
  | nil => intro db c; simp
  | cons a d ih =>
    intro db c
    rw [List.foldl_cons, ih]
    have hstep : c ∈ (insertRecord db a).continents ↔
        c ∈ db.continents ∨ a.continent = c := by
      unfold insertRecord
      dsimp only
      split
      · rename_i hmem
        constructor
        · exact Or.inl
        · rintro (h | rfl)
          · exact h
          · exact hmem
      · simp [List.mem_append, eq_comm]
    rw [hstep]
    simp only [List.mem_cons]
    constructor
    · rintro ((h | h) | ⟨r, hr, hc⟩)
      · exact Or.inl h
      · exact Or.inr ⟨a, Or.inl rfl, h⟩
      · exact Or.inr ⟨r, Or.inr hr, hc⟩
    · rintro (h | ⟨r, (rfl | hr), hc⟩)
      · exact Or.inl (Or.inl h)
      · exact Or.inl (Or.inr hc)
      · exact Or.inr ⟨r, hr, hc⟩

theorem foldl_insert_continents_nodup (data : List TemperatureRecord) :
    ∀ db : DBState, db.continents.Nodup → (data.foldl insertRecord db).continents.Nodup := by
  induction data with
  | nil => intro db h; exact h
  | cons a d ih =>
    intro db h
    rw [List.foldl_cons]
    refine ih (insertRecord db a) ?_
    unfold insertRecord
    dsimp only
    split
    · exact h
    · rename_i hmem
      simp [List.nodup_append, h, hmem]

theorem foldl_insert_countries_mem (data : List TemperatureRecord) :
    ∀ (db : DBState) (p : String × String),
      (p ∈ (data.foldl insertRecord db).countries ↔
        p ∈ db.countries ∨ ∃ r ∈ data, (r.country, r.continent) = p) := by
  induction data with
  | nil => intro db p; simp
  | cons a d ih =>
    intro db p
    rw [List.foldl_cons, ih]
    have hstep : p ∈ (insertRecord db a).countries ↔
        p ∈ db.countries ∨ (a.country, a.continent) = p := by
      unfold insertRecord
      dsimp only
      split
      · rename_i hmem
        constructor
        · exact Or.inl
        · rintro (h | rfl)
          · exact h
          · exact hmem
      · simp [List.mem_append, eq_comm]
    rw [hstep]
    simp only [List.mem_cons]
    constructor
    · rintro ((h | h) | ⟨r, hr, hc⟩)
      · exact Or.inl h
      · exact Or.inr ⟨a, Or.inl rfl, h⟩
      · exact Or.inr ⟨r, Or.inr hr, hc⟩
    · rintro (h | ⟨r, (rfl | hr), hc⟩)
      · exact Or.inl (Or.inl h)
      · exact Or.inl (Or.inr hc)
      · exact Or.inr ⟨r, hr, hc⟩

theorem foldl_insert_countries_nodup (data : List TemperatureRecord) :
    ∀ db : DBState, db.countries.Nodup → (data.foldl insertRecord db).countries.Nodup := by
  induction data with
  | nil => intro db h; exact h
  | cons a d ih =>
    intro db h
    rw [List.foldl_cons]
    refine ih (insertRecord db a) ?_
    unfold insertRecord
    dsimp only
    split
    · exact h
    · rename_i hmem
      simp [List.nodup_append, h, hmem]

theorem foldl_insert_cities (data : List TemperatureRecord) :
    ∀ db : DBState, (data.foldl insertRecord db).cities =
      db.cities ++ data.map (fun r => (r.city, r.country, r.continent)) := by
  induction data with
  | nil => intro db; simp
  | cons a d ih =>
    intro db
    rw [List.foldl_cons, ih, List.map_cons]
    show db.cities ++ [(a.city, a.country, a.continent)] ++ _ = _
    rw [List.append_assoc]
    rfl

theorem foldl_insert_temperatures (data : List TemperatureRecord) :
    ∀ db : DBState, (data.foldl insertRecord db).temperatures =
      db.temperatures ++ data.map (fun r => (r.monthly, r.yearly_avg)) := by
  induction data with
  | nil => intro db; simp
  | cons a d ih =>
    intro db
    rw [List.foldl_cons, ih, List.map_cons]
    show db.temperatures ++ [(a.monthly, a.yearly_avg)] ++ _ = _
    rw [List.append_assoc]
    rfl

/-- C8: over one run, the stored continents are the records' continents
without duplicates, the stored countries are the records' (country,
continent) pairs without duplicates — re-inserts are silently ignored, not
errors — while every record unconditionally appends its own city row and
temperature row. -/
theorem create_database_dedup (data : List TemperatureRecord) :
    (create_database data).continents.Nodup ∧
    (∀ c, c ∈ (create_database data).continents ↔ ∃ r ∈ data, r.continent = c) ∧
    (create_database data).countries.Nodup ∧
    (∀ p, p ∈ (create_database data).countries ↔ ∃ r ∈ data, (r.country, r.continent) = p) ∧
    (create_database data).cities = data.map (fun r => (r.city, r.country, r.continent)) ∧
    (create_database data).temperatures = data.map (fun r => (r.monthly, r.yearly_avg)) := by
  unfold create_database
  refine ⟨foldl_insert_continents_nodup data ⟨[], [], [], []⟩ (by simp), ?_,
    foldl_insert_countries_nodup data ⟨[], [], [], []⟩ (by simp), ?_, ?_, ?_⟩
  · intro c
    rw [foldl_insert_continents_mem data ⟨[], [], [], []⟩ c]
    simp
  · intro p
    rw [foldl_insert_countries_mem data ⟨[], [], [], []⟩ p]
    simp
  · rw [foldl_insert_cities data ⟨[], [], [], []⟩]
    rfl
  · rw [foldl_insert_temperatures data ⟨[], [], [], []⟩]
    rfl
